import Mathlib

/-!
Verification of the timestamp-alignment engine of `aind-ephys-rig-qc`
(`src/aind_ephys_rig_qc/temporal_alignment.py`).

The Python code is shallowly embedded: sample numbers are `ℤ`, times and
sample rates are `ℚ` (the Python code computes with floats; all the
quantities appearing in the verified statements are exact), fallible code
returns `Except String` where the string names the Python exception that
the corresponding path raises.  Printing and plotting are side effects
with no influence on the computed values and are not modelled.
-/

/-! ### `clean_up_sample_chunks` (temporal_alignment.py lines 27-124) -/

/-- `np.diff(sample_number)`: consecutive differences of the sample counter. -/
def sampleIntervals (s : List ℤ) : List ℤ :=
  List.zipWith (fun a b => b - a) s s.tail

/-- `np.where(sample_intervals != 1)[0]`: the (ascending) indices of the
intervals that are not `1`. -/
def discontinuities (s : List ℤ) : List ℕ :=
  (List.range (sampleIntervals s).length).filter
    (fun i => (sampleIntervals s).getD i 0 ≠ 1)

/-- `np.concatenate((np.array([0]), discontinuities + 1))`: the start index of
every maximal contiguous chunk of the counter. -/
def segBounds (s : List ℤ) : List ℕ :=
  0 :: (discontinuities s).map (· + 1)

/-- The loop over `range(len(discontinuities))` building `sample_ranges`:
each chunk contributes the pair of counter values at its first and last
position (`sample_number[[b_i, b_(i+1) - 1]]`, and
`sample_number[[b_last, -1]]` for the final chunk). -/
def rangesFromBounds (s : List ℤ) : List ℕ → List (ℤ × ℤ)
  | [] => []
  | [b] => [(s.getD b 0, s.getD (s.length - 1) 0)]
  | b :: b2 :: rest =>
      (s.getD b 0, s.getD (b2 - 1) 0) :: rangesFromBounds s (b2 :: rest)

/-- `sample_ranges` as a function of the raw counter. -/
def sampleRanges (s : List ℤ) : List (ℤ × ℤ) :=
  rangesFromBounds s (segBounds s)

/-- Helper for `np.argmax`: scan remembering the index of the first maximum. -/
def argmaxAux : List ℤ → ℕ → ℕ → ℤ → ℕ
  | [], _, best, _ => best
  | v :: vs, i, best, bv =>
      if bv < v then argmaxAux vs (i + 1) i v else argmaxAux vs (i + 1) best bv

/-- `np.argmax`: index of the first maximal element (`0` on the empty list). -/
def argmaxList : List ℤ → ℕ
  | [] => 0
  | v :: vs => argmaxAux vs 1 0 v

/-- `major_ind = np.argmax(sample_ranges[:, 1] - sample_ranges[:, 0])`. -/
def cleanMajorIdx (s : List ℤ) : ℕ :=
  argmaxList ((sampleRanges s).map (fun r => r.2 - r.1))

/-- `(major_min, major_max)`: the row of `sample_ranges` at `major_ind`. -/
def cleanMajorRange (s : List ℤ) : ℤ × ℤ :=
  (sampleRanges s).getD (cleanMajorIdx s) (0, 0)

/-- `residual_ranges = np.delete(sample_ranges, major_ind, axis=0)`. -/
def cleanResiduals (s : List ℤ) : List (ℤ × ℤ) :=
  (sampleRanges s).eraseIdx (cleanMajorIdx s)

/-- One entry of the `no_overlaps` mask:
`(r0 - major_min) * (r0 - major_max) > 0 and (r1 - major_min) * (r1 - major_max) > 0`. -/
def noOverlapFlag (m r : ℤ × ℤ) : Bool :=
  decide (0 < (r.1 - m.1) * (r.1 - m.2)) && decide (0 < (r.2 - m.1) * (r.2 - m.2))

/-- The `no_overlaps` boolean mask over the residual ranges. -/
def cleanNoOverlap (s : List ℤ) : List Bool :=
  (cleanResiduals s).map (noOverlapFlag (cleanMajorRange s))

/-- `clean_up_sample_chunks` (lines 27-124).  Paths that raise in Python are
`Except.error` with the exception name:
* with `>= 3` discontinuities the code sets `realign = False` but then falls
  through to line 120 and evaluates `residual_ranges[0][0]` on the still-empty
  Python list `residual_ranges`, raising `IndexError`;
* with a mix of removable and non-removable residual chunks the `else` branch
  evaluates `main_range.delete(...)` — `np.ndarray` has no `delete` attribute,
  raising `AttributeError`.
With no removable residual chunk the `overlap_perc` expression only divides
numpy scalars (division by a zero span emits a RuntimeWarning and yields
`nan`, it never raises), so the function proceeds to line 120 and returns
`realign` (set to `False` unless the first residual range starts at
`sample_number[0]`) together with `residual_ranges`. -/
def clean_up_sample_chunks (s : List ℤ) : Except String (Bool × List (ℤ × ℤ)) :=
  if (discontinuities s).length = 0 then .ok (true, [])
  else if 3 ≤ (discontinuities s).length then .error "IndexError"
  else if (cleanNoOverlap s).all id then
    .ok (decide (((cleanResiduals s).getD 0 (0, 0)).1 = s.getD 0 0), cleanResiduals s)
  else if (cleanNoOverlap s).any id then .error "AttributeError"
  else
    .ok (decide (((cleanResiduals s).getD 0 (0, 0)).1 = s.getD 0 0), cleanResiduals s)

/-- `x` lies strictly inside the interval `(a, b)`. -/
def strictlyInside (x a b : ℤ) : Prop := a < x ∧ x < b

instance (x a b : ℤ) : Decidable (strictlyInside x a b) := by
  unfold strictlyInside; infer_instance

/-- `x` lies outside the closed interval spanned by `a` and `b`
(both endpoints excluded from the outside). -/
def outsideClosed (x a b : ℤ) : Prop := x < min a b ∨ max a b < x

instance (x a b : ℤ) : Decidable (outsideClosed x a b) := by
  unfold outsideClosed; infer_instance

/-- A residual range lies entirely outside the counter-value span of the
major range. -/
def entirelyOutside (r m : ℤ × ℤ) : Prop :=
  max r.1 r.2 < min m.1 m.2 ∨ max m.1 m.2 < min r.1 r.2

instance (r m : ℤ × ℤ) : Decidable (entirelyOutside r m) := by
  unfold entirelyOutside; infer_instance

/-! ### `archive_and_replace_original_timestamps` (lines 246-278) -/

/-- The pair of files a stream's timestamp directory may hold: the "current"
`timestamps.npy` and the archive file.  `none` means the file does not exist. -/
structure TsDir where
  current : Option (List ℚ)
  archive : Option (List ℚ)
deriving DecidableEq

/-- `archive_and_replace_original_timestamps` (lines 246-278): if the archive
file does not exist, rename the current file to the archive name (raising
`FileNotFoundError` if the current file is missing); otherwise unlink the
current file (again `FileNotFoundError` if missing) and leave the archive
untouched.  In both cases `np.save` then writes `new_timestamps` as the new
current file. -/
def archive_and_replace_original_timestamps (d : TsDir) (newTs : List ℚ) :
    Except String TsDir :=
  match d.archive with
  | none =>
    match d.current with
    | none => .error "FileNotFoundError"
    | some cur => .ok { current := some newTs, archive := some cur }
  | some a =>
    match d.current with
    | none => .error "FileNotFoundError"
    | some _ => .ok { current := some newTs, archive := some a }

/-- Two consecutive alignment runs on a fresh directory holding `t0`:
the first run writes `n1`, the second `n2`. -/
def archiveTwice (t0 n1 n2 : List ℚ) : Except String TsDir :=
  (archive_and_replace_original_timestamps ⟨some t0, none⟩ n1).bind
    (fun d1 => archive_and_replace_original_timestamps d1 n2)

/-! ### Piecewise-linear remapper

`align_timestamps_to_anchor_points` is imported from the external
`harp.clock` package; its implementation is not part of this repository. -/

/-- The linear map through the two anchor points `(a, t)` and `(a2, t2)`,
evaluated at `x`. -/
def remapPair (a t a2 t2 x : ℚ) : ℚ :=
  t + (x - a) / (a2 - a) * (t2 - t)

/-- Modelled from the spec: `align_timestamps_to_anchor_points` comes from the
external `harp.clock` package and is not in this repository; this follows the
spec's Piecewise-Linear Remapper: between bracketing anchors `k`, `k+1` the
value is `target_k + (i - anchor_k) / (anchor_(k+1) - anchor_k) *
(target_(k+1) - target_k)`; beyond the first/last anchor it extrapolates
linearly using the nearest anchor pair's slope.  Anchor lists with fewer than
two points are degenerate (the spec makes them a fatal condition); this
function returns `0` there and no verified statement depends on that case. -/
def remapPoint : List (ℚ × ℚ) → ℚ → ℚ
  | [], _ => 0
  | [_], _ => 0
  | [(a, t), (a2, t2)], x => remapPair a t a2 t2 x
  | (a, t) :: (a2, t2) :: c :: rest, x =>
      if x ≤ a2 then remapPair a t a2 t2 x
      else remapPoint ((a2, t2) :: c :: rest) x

/-- Modelled from the spec: the full remapper
`align_timestamps_to_anchor_points(raw_indices, anchor_indices, anchor_times)`
maps every raw index through the piecewise-linear interpolant of the anchors. -/
def alignTimestampsToAnchorPoints (xs anchorIdx anchorTs : List ℚ) : List ℚ :=
  xs.map (remapPoint (anchorIdx.zip anchorTs))

/-- Strictly ascending first components of an anchor list. -/
def ascSamplesB : List (ℚ × ℚ) → Bool
  | [] => true
  | [_] => true
  | p :: q :: rest => decide (p.1 < q.1) && ascSamplesB (q :: rest)

/-! ### Cross-stream reconciliation in `align_timestamps` (lines 281-737) -/

/-- The data of one non-reference stream that `align_timestamps` processes:
its sorted sync-event sample numbers (`events_for_stream.sample_number`),
its sample rate, and its continuous sample counter (`sample_numbers`). -/
structure SyncStream where
  events : List ℤ
  rate : ℚ
  samples : List ℤ
deriving DecidableEq

/-- `main_stream_times` (lines 393-399): sync-event sample numbers divided by
the sample rate, shifted so that the first entry is zero. -/
def mainStreamTimesOf (me : List ℤ) (rate : ℚ) : List ℚ :=
  let ts := me.map (fun n => (n : ℚ) / rate)
  ts.map (fun t => t - ts.headD 0)

/-- The single event-count correction pass of `align_timestamps`
(lines 556-615).  Given the (restored) main-stream sync events `me`, the
current `main_stream_times` list `mt` and the candidate stream's sync events
`ce`: if the counts differ, the offset between the first event times decides
whether one event is dropped from the front (`offset > 0.1`) or the back of
whichever list is longer (trimming `main_stream_times` together with the main
events); accessing the first event of an empty list raises `IndexError`. -/
def reconcile (me : List ℤ) (mt : List ℚ) (ce : List ℤ) (mainRate currRate : ℚ) :
    Except String (List ℤ × List ℚ × List ℤ) :=
  if me.length = ce.length then .ok (me, mt, ce)
  else
    match me, ce with
    | [], _ => .error "IndexError"
    | _, [] => .error "IndexError"
    | m0 :: _, c0 :: _ =>
      let offset := |(m0 : ℚ) / mainRate - (c0 : ℚ) / currRate|
      if 1 / 10 < offset then
        if ce.length < me.length then .ok (me.tail, mt.tail, ce)
        else .ok (me, mt, ce.tail)
      else
        if ce.length < me.length then .ok (me.dropLast, mt.dropLast, ce)
        else .ok (me, mt, ce.dropLast)

/-- Processing of one non-reference stream (lines 488-737): restore the main
events from the archive copy, run the single correction pass, then
`assert len(main_stream_events) == len(events_for_stream)`; only if the
assertion holds are the stream's continuous sample numbers remapped
(`ts_stream`).  Returns the remapped timestamps together with the
`main_stream_times` list left for the next loop iteration (the code does not
restore `main_stream_times` between iterations). -/
def processOneStream (me : List ℤ) (mainRate : ℚ) (mt : List ℚ) (st : SyncStream) :
    Except String (List ℚ × List ℚ) :=
  match reconcile me mt st.events mainRate st.rate with
  | .error e => .error e
  | .ok (me2, mt2, ce2) =>
    if me2.length = ce2.length then
      .ok (alignTimestampsToAnchorPoints (st.samples.map (fun n => (n : ℚ)))
            (ce2.map (fun n => (n : ℚ))) mt2, mt2)
    else .error "AssertionError"

/-- The loop over the non-reference streams.  A Python exception in one
iteration propagates and aborts the whole loop, which the `Except` monad
models by short-circuiting. -/
def processStreamsAux (me : List ℤ) (mainRate : ℚ) :
    List ℚ → List SyncStream → Except String (List (List ℚ))
  | _, [] => .ok []
  | mt, st :: rest =>
    match processOneStream me mainRate mt st with
    | .error e => .error e
    | .ok (out, mt2) =>
      match processStreamsAux me mainRate mt2 rest with
      | .error e => .error e
      | .ok outs => .ok (out :: outs)

/-- Alignment of all non-reference streams of one recording against the main
stream's sync events. -/
def processStreams (me : List ℤ) (mainRate : ℚ) (sts : List SyncStream) :
    Except String (List (List ℚ)) :=
  processStreamsAux me mainRate (mainStreamTimesOf me mainRate) sts

/-- Whether an `Except` value is a success. -/
def exceptOk {ε α : Type} : Except ε α → Bool
  | .ok _ => true
  | .error _ => false

/-! ### Anchor-point extraction for the reference stream (lines 342-402) -/

/-- Check whether the character list `pat` starts the character list given
second. -/
def beginsWithList : List Char → List Char → Bool
  | [], _ => true
  | _ :: _, [] => false
  | a :: as, b :: bs => a == b && beginsWithList as bs

/-- Check whether `pat` occurs contiguously inside the second list. -/
def containsSeq (pat : List Char) : List Char → Bool
  | [] => beginsWithList pat []
  | c :: cs => beginsWithList pat (c :: cs) || containsSeq pat cs

/-- The Python test `"PXIe" in stream_name`. -/
def nameHasPXIe (s : String) : Bool :=
  containsSeq "PXIe".toList s.toList

/-- One row of the `recording.events` table (the columns the alignment
reads). -/
structure Event where
  stream_name : String
  processor_id : ℕ
  line : ℕ
  state : ℕ
  sample_number : ℤ
deriving DecidableEq

/-- A default event for `headD`. -/
def dummyEvent : Event := ⟨"", 0, 0, 0, 0⟩

/-- The state the selection filters on (lines 342-358): `0` when the stream is
the NIDAQ stream (`"PXIe" in stream_name`) and `flip_NIDAQ` is set, else `1`. -/
def eventStateFor (name : String) (flip : Bool) : ℕ :=
  if nameHasPXIe name && flip then 0 else 1

/-- `main_stream_events`: the filter of lines 342-358 selecting this stream's
sync events on `local_sync_line` with the polarity-dependent state. -/
def mainStreamEvents (events : List Event) (name : String) (pid syncLine : ℕ)
    (flip : Bool) : List Event :=
  events.filter (fun e =>
    e.stream_name == name && e.processor_id == pid && e.line == syncLine &&
      e.state == eventStateFor name flip)

/-- The sort key of `sort_values(by="sample_number")`. -/
def eventLE (a b : Event) : Prop := a.sample_number ≤ b.sample_number

instance : DecidableRel eventLE := fun a b =>
  inferInstanceAs (Decidable (a.sample_number ≤ b.sample_number))

instance : IsTotal Event eventLE := ⟨fun a b => le_total a.sample_number b.sample_number⟩

instance : IsTrans Event eventLE := ⟨fun _ _ _ hab hbc => le_trans hab hbc⟩

/-- `main_stream_events.sort_values(by="sample_number")` (lines 360-362). -/
def sortedMainEvents (events : List Event) (name : String) (pid syncLine : ℕ)
    (flip : Bool) : List Event :=
  List.insertionSort eventLE (mainStreamEvents events name pid syncLine flip)

/-- `main_stream_times` for the reference stream (lines 393-399): sorted sync
sample numbers divided by the sample rate, then shifted so the first entry
is zero. -/
def mainAnchorTimes (events : List Event) (name : String) (pid syncLine : ℕ)
    (flip : Bool) (rate : ℚ) : List ℚ :=
  let ts := (sortedMainEvents events name pid syncLine flip).map
    (fun e => (e.sample_number : ℚ) / rate)
  ts.map (fun t => t - ts.headD 0)

/-! ### `search_harp_line` (lines 127-243) -/

/-- `np.diff(ts)`: inter-event intervals of the per-line edge times. -/
def interEventIntervals (ts : List ℚ) : List ℚ :=
  List.zipWith (fun a b => b - a) ts ts.tail

/-- `p_short` (lines 216-218): the fraction of inter-event intervals strictly
below `0.05` s.  With no interval the Python expression divides by zero and
produces `nan`, which fails the later `> 0.5` test; rational division by zero
gives `0`, which fails the same test. -/
def shortGapFraction (ts : List ℚ) : ℚ :=
  (((interEventIntervals ts).filter (fun g => g < 1 / 20)).length : ℚ) /
    ((interEventIntervals ts).length : ℚ)

/-- `search_harp_line`'s selection (line 229):
`lines_to_scan[(p_short > 0.5) & (p_value > 0.95)]`.  The chi-square p-value is
computed by `scipy.stats.chisquare`, an external library, and enters the model
as the function `pValue`; the edge times of each candidate line enter as
`edgeTimes`. -/
def searchHarpLine (linesToScan : List ℕ) (edgeTimes : ℕ → List ℚ)
    (pValue : ℕ → ℚ) : List ℕ :=
  linesToScan.filter (fun l =>
    decide (1 / 2 < shortGapFraction (edgeTimes l)) && decide (19 / 20 < pValue l))

/-! ### Harp barcode decoding in `align_timestamps_harp` (lines 811-837) -/

/-- One run of edges on the barcode line (the slice
`harp_timestamps_local[edges[0]:edges[1]]`, `harp_states[edges[0]:edges[1]]`). -/
structure BarcodeSegment where
  times : List ℚ
  states : List ℕ
deriving DecidableEq

/-- The decode loop of `align_timestamps_harp` (lines 817-837): every segment
on which `convert_barcode` raises `IndexError` is skipped (`except IndexError:
pass`); the surviving segments are concatenated and handed to
`decode_harp_clock`.  `convert_barcode` and `decode_harp_clock` are external
(`harp.clock`) and enter the model as the parameters `decodable` and
`decodeClock`.  When no segment survives, `np.concatenate` of the empty list
raises `ValueError`. -/
def harpProcessRecording (segs : List BarcodeSegment)
    (decodable : BarcodeSegment → Bool)
    (decodeClock : List ℚ → List ℕ → List ℚ × List ℚ) :
    Except String (List ℚ × List ℚ) :=
  let valids := segs.filter decodable
  if valids = [] then .error "ValueError"
  else .ok (decodeClock ((valids.map (fun b => b.times)).flatten)
      ((valids.map (fun b => b.states)).flatten))

/-! ## Supporting lemmas -/

theorem length_sampleIntervals (s : List ℤ) :
    (sampleIntervals s).length = s.length - 1 := by
  simp only [sampleIntervals, List.length_zipWith, List.length_tail]
  omega

theorem mem_discontinuities_lt {s : List ℤ} {i : ℕ} (h : i ∈ discontinuities s) :
    i + 1 < s.length := by
  have h1 := (List.mem_filter.mp h).1
  have h2 := List.mem_range.mp h1
  have h3 := length_sampleIntervals s
  omega

theorem getD_ne_of_nodup {s : List ℤ} (h : s.Nodup) {i j : ℕ}
    (hi : i < s.length) (hj : j < s.length) (hij : i ≠ j) :
    s.getD i 0 ≠ s.getD j 0 := by
  rw [List.getD_eq_getElem _ _ hi, List.getD_eq_getElem _ _ hj]
  intro he
  exact hij ((h.getElem_inj_iff).mp he)

theorem prodPos_iff_outside (x a b : ℤ) :
    0 < (x - a) * (x - b) ↔ outsideClosed x a b := by
  rw [mul_pos_iff, outsideClosed]
  constructor
  · rintro (⟨h1, h2⟩ | ⟨h1, h2⟩)
    · exact Or.inr (max_lt (by linarith) (by linarith))
    · exact Or.inl (lt_min (by linarith) (by linarith))
  · rintro (h | h)
    · have h1 := min_le_left a b
      have h2 := min_le_right a b
      exact Or.inr ⟨by linarith, by linarith⟩
    · have h1 := le_max_left a b
      have h2 := le_max_right a b
      exact Or.inl ⟨by linarith, by linarith⟩

theorem noOverlapFlag_of_entirelyOutside {r m : ℤ × ℤ}
    (h : entirelyOutside r m) : noOverlapFlag m r = true := by
  have hr1 := le_max_left r.1 r.2
  have hr2 := le_max_right r.1 r.2
  have hm1 := min_le_left m.1 m.2
  have hm2 := min_le_right m.1 m.2
  have hM1 := le_max_left m.1 m.2
  have hM2 := le_max_right m.1 m.2
  have hn1 := min_le_left r.1 r.2
  have hn2 := min_le_right r.1 r.2
  simp only [noOverlapFlag, Bool.and_eq_true, decide_eq_true_eq]
  rcases h with h | h
  · exact ⟨mul_pos_of_neg_of_neg (by linarith) (by linarith),
      mul_pos_of_neg_of_neg (by linarith) (by linarith)⟩
  · exact ⟨mul_pos (by linarith) (by linarith), mul_pos (by linarith) (by linarith)⟩

theorem cleanNoOverlap_all_of_outside {s : List ℤ}
    (h : ∀ r ∈ cleanResiduals s, entirelyOutside r (cleanMajorRange s)) :
    (cleanNoOverlap s).all id = true := by
  rw [cleanNoOverlap, List.all_eq_true]
  intro b hb
  obtain ⟨r, hr, rfl⟩ := List.mem_map.mp hb
  exact noOverlapFlag_of_entirelyOutside (h r hr)

/-! ## Claim theorems -/

/-- C3: `archive_and_replace_original_timestamps` moves the current timestamps
file to the archive path when no archive exists yet, leaves an existing
archive unchanged, and in both cases leaves exactly `new_timestamps` in the
current file; hence two consecutive alignment runs leave one archive holding
the pre-first-run values, not the once-aligned values. -/
theorem archive_first_wins (d : TsDir) (ts newTs : List ℚ)
    (hc : d.current = some ts) :
    (d.archive = none →
      archive_and_replace_original_timestamps d newTs =
        .ok ⟨some newTs, some ts⟩) ∧
    (∀ a, d.archive = some a →
      archive_and_replace_original_timestamps d newTs =
        .ok ⟨some newTs, some a⟩) ∧
    (∀ t0 n1 n2, archiveTwice t0 n1 n2 = .ok ⟨some n2, some t0⟩) := by
  refine ⟨?_, ?_, ?_⟩
  · intro ha
    simp [archive_and_replace_original_timestamps, ha, hc]
  · intro a ha
    simp [archive_and_replace_original_timestamps, ha, hc]
  · intro t0 n1 n2
    rfl

/-- Witness for C3 at a concrete directory state. -/
theorem archive_first_wins_witness :
    archive_and_replace_original_timestamps ⟨some [1], none⟩ [2] =
      .ok ⟨some [2], some [1]⟩ :=
  (archive_first_wins ⟨some [1], none⟩ [1] [2] rfl).1 rfl

/-- C4: a sample counter with three discontinuities does NOT make
`clean_up_sample_chunks` return `realignable = False` with an empty residual
set: after setting `realign = False` the code falls through to line 120 and
indexes the still-empty Python list `residual_ranges`, raising `IndexError`
instead of returning — contradicting the function's documented return
contract. -/
theorem clean_up_three_disc_raises :
    clean_up_sample_chunks [0, 2, 4, 6] = .error "IndexError" ∧
    (discontinuities [0, 2, 4, 6]).length = 3 :=
  ⟨rfl, rfl⟩

/-- C2: when the event counts of the reference and a candidate stream differ
and both lists are nonempty, exactly one event is dropped: from the front of
the longer list when the first-event offset exceeds `0.1` s, from the back of
the longer list otherwise; the shorter list is unchanged (and the main times
are trimmed together with the main events). -/
theorem reconcile_single_trim (me : List ℤ) (mt : List ℚ) (ce : List ℤ)
    (mainRate currRate : ℚ)
    (hne : me.length ≠ ce.length) (hm : me ≠ []) (hc : ce ≠ []) :
    (1 / 10 < |(me.headD 0 : ℚ) / mainRate - (ce.headD 0 : ℚ) / currRate| →
      (ce.length < me.length →
        reconcile me mt ce mainRate currRate = .ok (me.tail, mt.tail, ce)) ∧
      (me.length < ce.length →
        reconcile me mt ce mainRate currRate = .ok (me, mt, ce.tail))) ∧
    (¬ 1 / 10 < |(me.headD 0 : ℚ) / mainRate - (ce.headD 0 : ℚ) / currRate| →
      (ce.length < me.length →
        reconcile me mt ce mainRate currRate = .ok (me.dropLast, mt.dropLast, ce)) ∧
      (me.length < ce.length →
        reconcile me mt ce mainRate currRate = .ok (me, mt, ce.dropLast))) := by
  obtain ⟨m0, ms, rfl⟩ := List.exists_cons_of_ne_nil hm
  obtain ⟨c0, cs, rfl⟩ := List.exists_cons_of_ne_nil hc
  simp only [List.headD_cons]
  constructor
  · intro hoff
    constructor
    · intro hlt
      simp only [reconcile, if_neg hne, if_pos hoff, if_pos hlt]
    · intro hlt
      simp only [reconcile, if_neg hne, if_pos hoff, if_neg (by omega : ¬ (c0 :: cs).length < (m0 :: ms).length)]
  · intro hoff
    constructor
    · intro hlt
      simp only [reconcile, if_neg hne, if_neg hoff, if_pos hlt]
    · intro hlt
      simp only [reconcile, if_neg hne, if_neg hoff, if_neg (by omega : ¬ (c0 :: cs).length < (m0 :: ms).length)]

/-- Witness for C2: the spec's front-trim example — reference anchors
`[10, 20, 30]`, candidate `[5, 10, 20, 30]`, first-event offset `5 s`. -/
theorem reconcile_single_trim_witness :
    reconcile [10, 20, 30] [0, 10, 20] [5, 10, 20, 30] 1 1 =
      .ok ([10, 20, 30], [0, 10, 20], [10, 20, 30]) :=
  ((reconcile_single_trim [10, 20, 30] [0, 10, 20] [5, 10, 20, 30] 1 1
    (by decide) (by decide) (by decide)).1 (by norm_num)).2 (by decide)

theorem filter_unique {α : Type} (p : α → Bool) :
    ∀ (l : List α), l.Nodup → ∀ x ∈ l, p x = true →
      (∀ y ∈ l, p y = true → y = x) → l.filter p = [x] := by
  intro l
  induction l with
  | nil => intro _ x hx; exact absurd hx (List.not_mem_nil x)
  | cons a l' ih =>
    intro hnd x hx hpx huniq
    have ha : a ∉ l' := (List.nodup_cons.mp hnd).1
    have hnd' : l'.Nodup := (List.nodup_cons.mp hnd).2
    rcases List.mem_cons.mp hx with rfl | hx'
    · rw [List.filter_cons_of_pos hpx]
      have hnil : l'.filter p = [] := by
        rw [List.filter_eq_nil_iff]
        intro y hy hpy
        exact ha (huniq y (List.mem_cons_of_mem _ hy) hpy ▸ hy)
      rw [hnil]
    · have hpa : ¬ p a = true := by
        intro hpa
        exact ha ((huniq a (List.mem_cons_self a l') hpa) ▸ hx')
      rw [List.filter_cons_of_neg (by simpa using hpa)]
      exact ih hnd' x hx' hpx (fun y hy hpy => huniq y (List.mem_cons_of_mem _ hy) hpy)

/-- C7: `search_harp_line` accepts exactly the candidate lines whose chi-square
p-value exceeds `0.95` and whose fraction of inter-edge gaps below `0.05` s
exceeds `0.5` (the p-value comes from the external `scipy.stats.chisquare`
and enters as the parameter `pValue`); when exactly one scanned line meets
both conditions, the selector returns exactly that line. -/
theorem search_harp_line_accepts (linesToScan : List ℕ) (edgeTimes : ℕ → List ℚ)
    (pValue : ℕ → ℚ) (hnd : linesToScan.Nodup) :
    (∀ l, l ∈ searchHarpLine linesToScan edgeTimes pValue ↔
      l ∈ linesToScan ∧ 19 / 20 < pValue l ∧
        1 / 2 < shortGapFraction (edgeTimes l)) ∧
    (∀ l0 ∈ linesToScan, 19 / 20 < pValue l0 →
      1 / 2 < shortGapFraction (edgeTimes l0) →
      (∀ l ∈ linesToScan, 19 / 20 < pValue l →
        1 / 2 < shortGapFraction (edgeTimes l) → l = l0) →
      searchHarpLine linesToScan edgeTimes pValue = [l0]) := by
  constructor
  · intro l
    simp only [searchHarpLine, List.mem_filter, Bool.and_eq_true, decide_eq_true_eq]
    tauto
  · intro l0 hl0 hp hg huniq
    exact filter_unique _ linesToScan hnd l0 hl0
      (by simp only [Bool.and_eq_true, decide_eq_true_eq]; exact ⟨hg, hp⟩)
      (fun y hy hpy => by
        simp only [Bool.and_eq_true, decide_eq_true_eq] at hpy
        exact huniq y hy hpy.2 hpy.1)

/-- Witness for C7: the spec's synthetic four-line dataset, where only line 3
has uniform-over-time (p-value 1) and majority-short-gap edges. -/
theorem search_harp_line_accepts_witness :
    searchHarpLine [0, 1, 2, 3]
      (fun l => if l = 3 then [0, 1 / 100, 2 / 100] else [0, 1, 2])
      (fun l => if l = 3 then 1 else 0) = [3] :=
  (search_harp_line_accepts [0, 1, 2, 3]
      (fun l => if l = 3 then [0, 1 / 100, 2 / 100] else [0, 1, 2])
      (fun l => if l = 3 then 1 else 0) (by decide)).2 3 (by decide)
    (by norm_num) (by norm_num [shortGapFraction, interEventIntervals])
    (by
      intro l hl
      fin_cases hl <;> norm_num [shortGapFraction, interEventIntervals])

/-- C9: in the Harp decode loop every segment on which decoding fails is
discarded and processing continues with the remaining segments; the failure
becomes fatal for the recording only when zero segments decode. -/
theorem harp_decode_discard_policy (segs : List BarcodeSegment)
    (decodable : BarcodeSegment → Bool)
    (decodeClock : List ℚ → List ℕ → List ℚ × List ℚ) :
    (segs.filter decodable ≠ [] →
      harpProcessRecording segs decodable decodeClock =
        .ok (decodeClock (((segs.filter decodable).map (fun b => b.times)).flatten)
          (((segs.filter decodable).map (fun b => b.states)).flatten))) ∧
    (segs.filter decodable = [] →
      harpProcessRecording segs decodable decodeClock = .error "ValueError") := by
  constructor <;> intro h <;> simp [harpProcessRecording, h]

/-- Witness for C9: one decodable and one malformed segment; the malformed one
is discarded and the decodable one is decoded. -/
theorem harp_decode_discard_policy_witness :
    harpProcessRecording [⟨[1], [1]⟩, ⟨[], []⟩]
      (fun b => !b.times.isEmpty) (fun ts ss => (ts, (ss.map (fun n => (n : ℚ))))) =
      .ok ([1], [1]) :=
  (harp_decode_discard_policy [⟨[1], [1]⟩, ⟨[], []⟩]
    (fun b => !b.times.isEmpty) (fun ts ss => (ts, (ss.map (fun n => (n : ℚ)))))).1
    (by decide)

/-- C6: the reference anchor set is built by selecting exactly the reference
stream's events on the sync line with state `1` (`0` when the NIDAQ polarity
flip applies), sorting them by sample number, converting each to
`sample_number / sample_rate`, and shifting all times so the first anchor's
time is exactly `0`. -/
theorem anchor_builder_spec (events : List Event) (name : String)
    (pid syncLine : ℕ) (flip : Bool) (rate : ℚ)
    (hne : mainStreamEvents events name pid syncLine flip ≠ []) :
    (∀ e, e ∈ mainStreamEvents events name pid syncLine flip ↔
      e ∈ events ∧ e.stream_name = name ∧ e.processor_id = pid ∧
        e.line = syncLine ∧
        e.state = (if nameHasPXIe name && flip then 0 else 1)) ∧
    (sortedMainEvents events name pid syncLine flip).Perm
      (mainStreamEvents events name pid syncLine flip) ∧
    List.Sorted eventLE (sortedMainEvents events name pid syncLine flip) ∧
    mainAnchorTimes events name pid syncLine flip rate =
      (sortedMainEvents events name pid syncLine flip).map
        (fun e => (e.sample_number : ℚ) / rate -
          (((sortedMainEvents events name pid syncLine flip).headD
            dummyEvent).sample_number : ℚ) / rate) ∧
    (mainAnchorTimes events name pid syncLine flip rate).headD 1 = 0 := by
  have hperm := List.perm_insertionSort eventLE
    (mainStreamEvents events name pid syncLine flip)
  have hsne : sortedMainEvents events name pid syncLine flip ≠ [] := by
    intro h0
    apply hne
    have := hperm.length_eq
    rw [sortedMainEvents] at h0
    rw [h0] at this
    exact List.length_eq_zero.mp this.symm
  refine ⟨?_, hperm, List.sorted_insertionSort eventLE _, ?_, ?_⟩
  · intro e
    simp only [mainStreamEvents, List.mem_filter, Bool.and_eq_true, beq_iff_eq,
      eventStateFor]
    tauto
  · obtain ⟨e, es, hes⟩ := List.exists_cons_of_ne_nil hsne
    rw [mainAnchorTimes, hes]
    simp [List.map_map, Function.comp]
  · obtain ⟨e, es, hes⟩ := List.exists_cons_of_ne_nil hsne
    rw [mainAnchorTimes, hes]
    simp

/-- Witness for C6 at a concrete event table (one matching sync event, one
event on another state that is filtered out). -/
theorem anchor_builder_spec_witness :
    (mainAnchorTimes
      [⟨"ProbeA", 100, 1, 1, 60⟩, ⟨"ProbeA", 100, 1, 1, 30⟩,
        ⟨"ProbeA", 100, 1, 0, 45⟩] "ProbeA" 100 1 false 30).headD 1 = 0 :=
  (anchor_builder_spec
    [⟨"ProbeA", 100, 1, 1, 60⟩, ⟨"ProbeA", 100, 1, 1, 30⟩,
      ⟨"ProbeA", 100, 1, 0, 45⟩] "ProbeA" 100 1 false 30
    (by decide)).2.2.2.2

theorem remapPoint_two (a t a2 t2 x : ℚ) :
    remapPoint [(a, t), (a2, t2)] x = remapPair a t a2 t2 x := rfl

theorem remapPoint_cons_cons (p q : ℚ × ℚ) (l : List (ℚ × ℚ)) (hl : l ≠ [])
    (x : ℚ) :
    remapPoint (p :: q :: l) x =
      if x ≤ q.1 then remapPair p.1 p.2 q.1 q.2 x else remapPoint (q :: l) x := by
  obtain ⟨a, t⟩ := p
  obtain ⟨a2, t2⟩ := q
  cases l with
  | nil => exact absurd rfl hl
  | cons c rest => rfl

theorem ascSamplesB_cons {p q : ℚ × ℚ} {l : List (ℚ × ℚ)}
    (h : ascSamplesB (p :: q :: l) = true) :
    p.1 < q.1 ∧ ascSamplesB (q :: l) = true := by
  simpa [ascSamplesB, Bool.and_eq_true, decide_eq_true_eq] using h

theorem ascSamplesB_before_lt (c : ℚ × ℚ) (m : List (ℚ × ℚ)) :
    ∀ l : List (ℚ × ℚ), ascSamplesB (l ++ c :: m) = true → ∀ p ∈ l, p.1 < c.1 := by
  intro l
  induction l with
  | nil => intro _ p hp; exact absurd hp (List.not_mem_nil p)
  | cons x l' ih =>
    intro h p hp
    cases l' with
    | nil =>
      simp only [List.nil_append, List.cons_append] at h
      obtain ⟨hx, _⟩ := ascSamplesB_cons h
      rcases List.mem_cons.mp hp with rfl | hp'
      · exact hx
      · exact absurd hp' (List.not_mem_nil p)
    | cons y l'' =>
      simp only [List.cons_append] at h
      obtain ⟨hxy, h'⟩ := ascSamplesB_cons h
      have ihy := ih (by simpa using h')
      rcases List.mem_cons.mp hp with rfl | hp'
      · exact lt_trans hxy (ihy y (List.mem_cons_self _ _))
      · exact ihy p hp'

theorem remapPoint_bracket (a t a2 t2 x : ℚ) (post : List (ℚ × ℚ))
    (h1 : a ≤ x) (h2 : x ≤ a2) :
    ∀ pre : List (ℚ × ℚ),
      ascSamplesB (pre ++ (a, t) :: (a2, t2) :: post) = true →
      remapPoint (pre ++ (a, t) :: (a2, t2) :: post) x = remapPair a t a2 t2 x := by
  intro pre
  induction pre with
  | nil =>
    intro h
    cases post with
    | nil => exact remapPoint_two a t a2 t2 x
    | cons c post' =>
      rw [List.nil_append,
        remapPoint_cons_cons (a, t) (a2, t2) (c :: post') (by simp) x, if_pos h2]
  | cons hd tl ih =>
    intro h
    obtain ⟨p, q⟩ := hd
    cases tl with
    | nil =>
      simp only [List.cons_append, List.nil_append] at h ⊢
      obtain ⟨hpa, h'⟩ := ascSamplesB_cons h
      obtain ⟨haa2, _⟩ := ascSamplesB_cons h'
      rw [remapPoint_cons_cons (p, q) (a, t) ((a2, t2) :: post) (by simp) x]
      by_cases hx : x ≤ a
      · have hxa : x = a := le_antisymm hx h1
        subst hxa
        have hne : x - p ≠ 0 := sub_ne_zero.mpr (ne_of_gt hpa)
        rw [if_pos le_rfl]
        calc remapPair p q x t x = t := by rw [remapPair, div_self hne]; ring
          _ = remapPair x t a2 t2 x := by rw [remapPair]; simp
      · rw [if_neg hx]
        exact ih (by simpa using h')
    | cons hd2 tl' =>
      simp only [List.cons_append] at h ⊢
      obtain ⟨hph2, h'⟩ := ascSamplesB_cons h
      have hh2a : hd2.1 < a :=
        ascSamplesB_before_lt (a, t) ((a2, t2) :: post) (hd2 :: tl')
          (by simpa using h') hd2 (List.mem_cons_self _ _)
      rw [remapPoint_cons_cons (p, q) hd2 (tl' ++ (a, t) :: (a2, t2) :: post)
        (by simp) x, if_neg (by push_neg; linarith)]
      exact ih (by simpa using h')

theorem remapPoint_first (a t a2 t2 x : ℚ) (post : List (ℚ × ℚ))
    (h : ascSamplesB ((a, t) :: (a2, t2) :: post) = true) (hx : x ≤ a) :
    remapPoint ((a, t) :: (a2, t2) :: post) x = remapPair a t a2 t2 x := by
  obtain ⟨haa2, _⟩ := ascSamplesB_cons h
  cases post with
  | nil => exact remapPoint_two a t a2 t2 x
  | cons c post' =>
    rw [remapPoint_cons_cons (a, t) (a2, t2) (c :: post') (by simp) x,
      if_pos (by linarith)]

theorem remapPoint_last (a t a2 t2 x : ℚ) (hx : a2 ≤ x) :
    ∀ pre : List (ℚ × ℚ),
      ascSamplesB (pre ++ [(a, t), (a2, t2)]) = true →
      remapPoint (pre ++ [(a, t), (a2, t2)]) x = remapPair a t a2 t2 x := by
  intro pre
  induction pre with
  | nil => intro _; exact remapPoint_two a t a2 t2 x
  | cons hd tl ih =>
    intro h
    obtain ⟨p, q⟩ := hd
    cases tl with
    | nil =>
      simp only [List.cons_append, List.nil_append] at h ⊢
      obtain ⟨hpa, h'⟩ := ascSamplesB_cons h
      obtain ⟨haa2, _⟩ := ascSamplesB_cons h'
      rw [remapPoint_cons_cons (p, q) (a, t) [(a2, t2)] (by simp) x,
        if_neg (by push_neg; linarith), remapPoint_two]
    | cons hd2 tl' =>
      simp only [List.cons_append] at h ⊢
      obtain ⟨hph2, h'⟩ := ascSamplesB_cons h
      have hh2 : hd2.1 < a2 := by
        have hasc : ascSamplesB ((hd2 :: (tl' ++ [(a, t)])) ++ (a2, t2) :: []) = true := by
          simpa [List.append_assoc] using h'
        exact ascSamplesB_before_lt (a2, t2) [] (hd2 :: (tl' ++ [(a, t)])) hasc hd2
          (List.mem_cons_self _ _)
      rw [remapPoint_cons_cons (p, q) hd2 (tl' ++ [(a, t), (a2, t2)]) (by simp) x,
        if_neg (by push_neg; linarith)]
      exact ih (by simpa using h')

/-- C8: (spec-modelled, the remapper lives in the external `harp.clock`
package) for strictly increasing anchors, a raw index between bracketing
anchors maps to `target_k + (i - anchor_k) / (anchor_(k+1) - anchor_k) *
(target_(k+1) - target_k)`; indices below the first or above the last anchor
extrapolate linearly with the nearest anchor pair; in particular for anchors
`[(0,0),(10,1),(20,2)]`, `remap([5]) = [1/2]` and `remap([15]) = [3/2]`. -/
theorem remap_piecewise_linear :
    (∀ (pre post : List (ℚ × ℚ)) (a t a2 t2 x : ℚ),
      ascSamplesB (pre ++ (a, t) :: (a2, t2) :: post) = true → a ≤ x → x ≤ a2 →
      remapPoint (pre ++ (a, t) :: (a2, t2) :: post) x =
        t + (x - a) / (a2 - a) * (t2 - t)) ∧
    (∀ (post : List (ℚ × ℚ)) (a t a2 t2 x : ℚ),
      ascSamplesB ((a, t) :: (a2, t2) :: post) = true → x ≤ a →
      remapPoint ((a, t) :: (a2, t2) :: post) x =
        t + (x - a) / (a2 - a) * (t2 - t)) ∧
    (∀ (pre : List (ℚ × ℚ)) (a t a2 t2 x : ℚ),
      ascSamplesB (pre ++ [(a, t), (a2, t2)]) = true → a2 ≤ x →
      remapPoint (pre ++ [(a, t), (a2, t2)]) x =
        t + (x - a) / (a2 - a) * (t2 - t)) ∧
    alignTimestampsToAnchorPoints [5] [0, 10, 20] [0, 1, 2] = [1 / 2] ∧
    alignTimestampsToAnchorPoints [15] [0, 10, 20] [0, 1, 2] = [3 / 2] := by
  refine ⟨?_, ?_, ?_, ?_, ?_⟩
  · intro pre post a t a2 t2 x h h1 h2
    exact remapPoint_bracket a t a2 t2 x post h1 h2 pre h
  · intro post a t a2 t2 x h hx
    exact remapPoint_first a t a2 t2 x post h hx
  · intro pre a t a2 t2 x h hx
    exact remapPoint_last a t a2 t2 x hx pre h
  · norm_num [alignTimestampsToAnchorPoints, List.zip, remapPoint, remapPair]
  · norm_num [alignTimestampsToAnchorPoints, List.zip, remapPoint, remapPair]

/-- Witness for C8: the bracketing-formula conjunct at the concrete anchors
`[(0,0),(10,1),(20,2)]` and raw index `5`. -/
theorem remap_piecewise_linear_witness :
    remapPoint [(0, 0), (10, 1), (20, 2)] 5 = 0 + (5 - 0) / (10 - 0) * (1 - 0) :=
  remap_piecewise_linear.1 [] [(20, 2)] 0 0 10 1 5
    (by norm_num [ascSamplesB]) (by norm_num) (by norm_num)

theorem reconcile_big_mismatch (me : List ℤ) (mt : List ℚ) (ce : List ℤ)
    (mainRate currRate : ℚ) (hm : me ≠ []) (hc : ce ≠ [])
    (hd : me.length + 2 ≤ ce.length ∨ ce.length + 2 ≤ me.length) :
    ∃ out : List ℤ × List ℚ × List ℤ,
      reconcile me mt ce mainRate currRate = .ok out ∧
      out.1.length ≠ out.2.2.length := by
  have hne : me.length ≠ ce.length := by omega
  obtain ⟨m0, ms, rfl⟩ := List.exists_cons_of_ne_nil hm
  obtain ⟨c0, cs, rfl⟩ := List.exists_cons_of_ne_nil hc
  by_cases hoff : 1 / 10 < |(m0 : ℚ) / mainRate - (c0 : ℚ) / currRate|
  · by_cases hlt : (c0 :: cs).length < (m0 :: ms).length
    · refine ⟨((m0 :: ms).tail, mt.tail, c0 :: cs), ?_, ?_⟩
      · simp only [reconcile]
        rw [if_neg hne, if_pos hoff, if_pos hlt]
      · simp only [List.tail_cons, List.length_cons] at *
        omega
    · refine ⟨(m0 :: ms, mt, (c0 :: cs).tail), ?_, ?_⟩
      · simp only [reconcile]
        rw [if_neg hne, if_pos hoff, if_neg hlt]
      · simp only [List.tail_cons, List.length_cons] at *
        omega
  · by_cases hlt : (c0 :: cs).length < (m0 :: ms).length
    · refine ⟨((m0 :: ms).dropLast, mt.dropLast, c0 :: cs), ?_, ?_⟩
      · simp only [reconcile]
        rw [if_neg hne, if_neg hoff, if_pos hlt]
      · simp only [List.length_dropLast, List.length_cons] at *
        omega
    · refine ⟨(m0 :: ms, mt, (c0 :: cs).dropLast), ?_, ?_⟩
      · simp only [reconcile]
        rw [if_neg hne, if_neg hoff, if_neg hlt]
      · simp only [List.length_dropLast, List.length_cons] at *
        omega

/-- C1: counterexample — a candidate stream whose sync-event count differs
from the reference count by two makes the `assert` at line 643 fail; the
raised `AssertionError` aborts the whole run, so a later healthy stream
(which on its own aligns fine, second conjunct) is NOT processed, contrary
to the claim that the bad stream is skipped while processing of the other
streams continues. -/
theorem align_mismatch_abort_cex :
    processStreams [0, 100, 200] 1
      [⟨[0], 1, [0, 1, 2]⟩, ⟨[0, 100, 200], 1, [0, 1, 2]⟩] =
      .error "AssertionError" ∧
    processStreams [0, 100, 200] 1 [⟨[0, 100, 200], 1, [0, 1, 2]⟩] =
      .ok [[0, 1, 2]] := by
  constructor
  · with_unfolding_all rfl
  · with_unfolding_all rfl

/-- C1 (amended): when a candidate stream's event count still differs from the
reference count after the single trimming correction, the `assert` of
line 643 fails before any remapping, and the resulting `AssertionError`
aborts the processing loop: the stream's timestamps are never remapped with
mismatched anchor counts, but the failure is not recorded and the remaining
streams and recordings are not processed. -/
theorem align_mismatch_assert_aborts (me : List ℤ) (mainRate : ℚ) (mt : List ℚ)
    (st : SyncStream) (rest : List SyncStream)
    (hm : me ≠ []) (hc : st.events ≠ [])
    (hd : me.length + 2 ≤ st.events.length ∨ st.events.length + 2 ≤ me.length) :
    processOneStream me mainRate mt st = .error "AssertionError" ∧
    processStreamsAux me mainRate mt (st :: rest) = .error "AssertionError" := by
  obtain ⟨⟨me2, mt2, ce2⟩, hrec, hlen⟩ :=
    reconcile_big_mismatch me mt st.events mainRate st.rate hm hc hd
  have h1 : processOneStream me mainRate mt st = .error "AssertionError" := by
    simp only [processOneStream, hrec]
    rw [if_neg hlen]
  refine ⟨h1, ?_⟩
  simp only [processStreamsAux, h1]

/-- Witness for C1's amended theorem: reference events `[0, 100, 200]`,
candidate events `[0]`. -/
theorem align_mismatch_assert_aborts_witness :
    processOneStream [0, 100, 200] 1 [0, 100, 200] ⟨[0], 1, [0, 1, 2]⟩ =
      .error "AssertionError" ∧
    processStreamsAux [0, 100, 200] 1 [0, 100, 200] [⟨[0], 1, [0, 1, 2]⟩] =
      .error "AssertionError" :=
  align_mismatch_assert_aborts [0, 100, 200] 1 [0, 100, 200]
    ⟨[0], 1, [0, 1, 2]⟩ [] (by decide) (by decide) (by decide)

theorem noOverlapFlag_eq_outsideClosed (m r : ℤ × ℤ) :
    noOverlapFlag m r =
      decide (outsideClosed r.1 m.1 m.2 ∧ outsideClosed r.2 m.1 m.2) := by
  rw [noOverlapFlag, ← Bool.decide_and]
  exact decide_eq_decide.mpr
    (and_congr (prodPos_iff_outside _ _ _) (prodPos_iff_outside _ _ _))

/-- C5: counterexample — two failures of the claim as stated.  For the counter
`[0, 1, 2, 3, 0]` the single residual range is `(0, 0)` and the major range is
`(0, 3)`; neither residual bound lies strictly inside `(0, 3)`, yet the code
classifies the residual as NOT removable (`no_overlaps = [False]`), because
its product test also rejects bounds equal to an endpoint of the major range.
And for the counter `[10, 11, 12, 13, 0, 11]` some residual is not removable
(`no_overlaps = [True, False]`), yet the function does not report the overlap
percentage and return: the reporting branch evaluates `main_range.delete(...)`
and raises `AttributeError`. -/
theorem clean_up_boundary_cex :
    cleanMajorRange [0, 1, 2, 3, 0] = (0, 3) ∧
    cleanResiduals [0, 1, 2, 3, 0] = [(0, 0)] ∧
    ¬ strictlyInside 0 0 3 ∧
    cleanNoOverlap [0, 1, 2, 3, 0] = [false] ∧
    cleanNoOverlap [10, 11, 12, 13, 0, 11] = [true, false] ∧
    clean_up_sample_chunks [10, 11, 12, 13, 0, 11] = .error "AttributeError" := by
  refine ⟨rfl, rfl, ?_, rfl, rfl, rfl⟩
  rw [strictlyInside]
  omega

/-- C5 (amended): with one or two discontinuities a residual range is
classified safely removable iff BOTH of its bounds lie outside the closed
interval spanned by `major_min` and `major_max` (a bound equal to an endpoint
counts as overlapping); when NO residual range is removable, the function
reports the overlap percentage and returns the residual ranges with the
sample-number data unchanged (a mix of removable and non-removable residuals
instead raises `AttributeError` inside the reporting branch). -/
theorem clean_up_removable_iff_outside_closed (s : List ℤ)
    (h : (discontinuities s).length = 1 ∨ (discontinuities s).length = 2) :
    cleanNoOverlap s = (cleanResiduals s).map (fun r =>
      decide (outsideClosed r.1 (cleanMajorRange s).1 (cleanMajorRange s).2 ∧
        outsideClosed r.2 (cleanMajorRange s).1 (cleanMajorRange s).2)) ∧
    ((∀ f ∈ cleanNoOverlap s, f = false) →
      clean_up_sample_chunks s =
        .ok (decide (((cleanResiduals s).getD 0 (0, 0)).1 = s.getD 0 0),
          cleanResiduals s)) := by
  constructor
  · rw [cleanNoOverlap]
    exact List.map_congr_left (fun r _ => noOverlapFlag_eq_outsideClosed _ r)
  · intro hall
    have h0 : ¬ (discontinuities s).length = 0 := by rcases h with h | h <;> omega
    have h33 : ¬ 3 ≤ (discontinuities s).length := by rcases h with h | h <;> omega
    rw [clean_up_sample_chunks, if_neg h0, if_neg h33]
    by_cases hallid : (cleanNoOverlap s).all id = true
    · rw [if_pos hallid]
    · rw [if_neg hallid]
      have hany : ¬ (cleanNoOverlap s).any id = true := by
        rw [List.any_eq_true]
        rintro ⟨b, hb, hbt⟩
        rw [hall b hb] at hbt
        exact Bool.false_ne_true hbt
      rw [if_neg hany]

/-- Witness for C5's amended theorem at the counter `[0, 1, 2, 3, 0]`: no
residual is removable and the function returns the residual ranges
unchanged. -/
theorem clean_up_removable_iff_outside_closed_witness :
    clean_up_sample_chunks [0, 1, 2, 3, 0] = .ok (true, [(0, 0)]) := by
  rw [(clean_up_removable_iff_outside_closed [0, 1, 2, 3, 0]
    (by decide)).2 (by decide)]
  rfl

/-- C10: with one or two discontinuities, distinct counter values, and every
residual segment entirely outside the major segment's counter-value span,
`clean_up_sample_chunks` returns `realign = True` iff the largest-span
("major") segment is not the initial segment of the counter: when the major
segment is the initial one, the first residual range does not begin at the
counter's first value, so line 120 sets `realign = False`. -/
theorem clean_up_realign_iff_major_not_initial (s : List ℤ)
    (h1 : (discontinuities s).length = 1 ∨ (discontinuities s).length = 2)
    (h2 : s.Nodup)
    (h3 : ∀ r ∈ cleanResiduals s, entirelyOutside r (cleanMajorRange s)) :
    clean_up_sample_chunks s =
      .ok (decide (cleanMajorIdx s ≠ 0), cleanResiduals s) := by
  have hall : (cleanNoOverlap s).all id = true := cleanNoOverlap_all_of_outside h3
  have h0 : ¬ (discontinuities s).length = 0 := by rcases h1 with h | h <;> omega
  have h33 : ¬ 3 ≤ (discontinuities s).length := by rcases h1 with h | h <;> omega
  rw [clean_up_sample_chunks, if_neg h0, if_neg h33, if_pos hall]
  suffices hiff : (((cleanResiduals s).getD 0 (0, 0)).1 = s.getD 0 0) ↔
      cleanMajorIdx s ≠ 0 by
    rw [decide_eq_decide.mpr hiff]
  rcases hl : discontinuities s with _ | ⟨d1, _ | ⟨d2, _ | ⟨d3, rest3⟩⟩⟩
  · rw [hl] at h1; simp at h1
  · -- exactly one discontinuity
    have hd1 : d1 + 1 < s.length :=
      mem_discontinuities_lt (by rw [hl]; exact List.mem_cons_self _ _)
    have hr : sampleRanges s =
        [(s.getD 0 0, s.getD d1 0),
          (s.getD (d1 + 1) 0, s.getD (s.length - 1) 0)] := by
      rw [sampleRanges, segBounds, hl]
      simp [rangesFromBounds]
    have hmi : cleanMajorIdx s =
        if s.getD d1 0 - s.getD 0 0 <
            s.getD (s.length - 1) 0 - s.getD (d1 + 1) 0 then 1 else 0 := by
      rw [cleanMajorIdx, hr]
      simp [argmaxList, argmaxAux]
    by_cases hM : s.getD d1 0 - s.getD 0 0 <
        s.getD (s.length - 1) 0 - s.getD (d1 + 1) 0
    · have hmi1 : cleanMajorIdx s = 1 := by rw [hmi, if_pos hM]
      have hres : cleanResiduals s = [(s.getD 0 0, s.getD d1 0)] := by
        rw [cleanResiduals, hr, hmi1]
        rfl
      rw [hres, hmi1]
      simp
    · have hmi0 : cleanMajorIdx s = 0 := by rw [hmi, if_neg hM]
      have hres : cleanResiduals s =
          [(s.getD (d1 + 1) 0, s.getD (s.length - 1) 0)] := by
        rw [cleanResiduals, hr, hmi0]
        rfl
      rw [hres, hmi0]
      have hne : s.getD (d1 + 1) 0 ≠ s.getD 0 0 :=
        getD_ne_of_nodup h2 hd1 (by omega) (by omega)
      rw [List.getD_cons_zero]
      constructor
      · intro hx; exact absurd hx hne
      · intro hx; exact absurd rfl hx
  · -- exactly two discontinuities
    have hd1 : d1 + 1 < s.length :=
      mem_discontinuities_lt (by rw [hl]; exact List.mem_cons_self _ _)
    have hr : sampleRanges s =
        [(s.getD 0 0, s.getD d1 0), (s.getD (d1 + 1) 0, s.getD d2 0),
          (s.getD (d2 + 1) 0, s.getD (s.length - 1) 0)] := by
      rw [sampleRanges, segBounds, hl]
      simp [rangesFromBounds]
    have hmi : cleanMajorIdx s =
        if s.getD d1 0 - s.getD 0 0 < s.getD d2 0 - s.getD (d1 + 1) 0 then
          (if s.getD d2 0 - s.getD (d1 + 1) 0 <
              s.getD (s.length - 1) 0 - s.getD (d2 + 1) 0 then 2 else 1)
        else
          (if s.getD d1 0 - s.getD 0 0 <
              s.getD (s.length - 1) 0 - s.getD (d2 + 1) 0 then 2 else 0) := by
      rw [cleanMajorIdx, hr]
      simp [argmaxList, argmaxAux]
    have hne : s.getD (d1 + 1) 0 ≠ s.getD 0 0 :=
      getD_ne_of_nodup h2 hd1 (by omega) (by omega)
    by_cases hM1 : s.getD d1 0 - s.getD 0 0 < s.getD d2 0 - s.getD (d1 + 1) 0
    · by_cases hM2 : s.getD d2 0 - s.getD (d1 + 1) 0 <
          s.getD (s.length - 1) 0 - s.getD (d2 + 1) 0
      · have hmi2 : cleanMajorIdx s = 2 := by rw [hmi, if_pos hM1, if_pos hM2]
        have hres : cleanResiduals s =
            [(s.getD 0 0, s.getD d1 0), (s.getD (d1 + 1) 0, s.getD d2 0)] := by
          rw [cleanResiduals, hr, hmi2]
          rfl
        rw [hres, hmi2]
        simp
      · have hmi1 : cleanMajorIdx s = 1 := by rw [hmi, if_pos hM1, if_neg hM2]
        have hres : cleanResiduals s =
            [(s.getD 0 0, s.getD d1 0),
              (s.getD (d2 + 1) 0, s.getD (s.length - 1) 0)] := by
          rw [cleanResiduals, hr, hmi1]
          rfl
        rw [hres, hmi1]
        simp
    · by_cases hM3 : s.getD d1 0 - s.getD 0 0 <
          s.getD (s.length - 1) 0 - s.getD (d2 + 1) 0
      · have hmi2 : cleanMajorIdx s = 2 := by rw [hmi, if_neg hM1, if_pos hM3]
        have hres : cleanResiduals s =
            [(s.getD 0 0, s.getD d1 0), (s.getD (d1 + 1) 0, s.getD d2 0)] := by
          rw [cleanResiduals, hr, hmi2]
          rfl
        rw [hres, hmi2]
        simp
      · have hmi0 : cleanMajorIdx s = 0 := by rw [hmi, if_neg hM1, if_neg hM3]
        have hres : cleanResiduals s =
            [(s.getD (d1 + 1) 0, s.getD d2 0),
              (s.getD (d2 + 1) 0, s.getD (s.length - 1) 0)] := by
          rw [cleanResiduals, hr, hmi0]
          rfl
        rw [hres, hmi0]
        rw [List.getD_cons_zero]
        constructor
        · intro hx; exact absurd hx hne
        · intro hx; exact absurd rfl hx
  · rw [hl] at h1; simp at h1

/-- Witness for C10: counter `[100, 5, 6, 7, 8]` — one discontinuity, the
major segment `[5..8]` is not the initial one, so `realign = True` with the
initial one-sample chunk as residual. -/
theorem clean_up_realign_iff_major_not_initial_witness :
    clean_up_sample_chunks [100, 5, 6, 7, 8] = .ok (true, [(100, 100)]) := by
  rw [clean_up_realign_iff_major_not_initial [100, 5, 6, 7, 8]
    (by decide) (by decide) (by decide)]
  rfl
